import Mathlib

/-!
Verification development for the scpTsunamiB swarm scheduler
(`src/trunk/scpTsunamiB.py`).

The Python source is shallowly embedded: every class becomes a structure,
every method a pure function on that structure (threads become explicit
interleaving parameters; `random.randint` draws become an explicit stream of
naturals supplied by the caller).  Python `int` is embedded as `Int` where the
source performs unguarded decrements (`transferslots`), and as `Nat` for pure
counters.
-/

/-- A file chunk; identity (and hence equality) is its on-disk filename,
mirroring class `Chunk` of the source. -/
structure Chunk where
  filename : String
deriving DecidableEq, Repr

/-- Per-host state, mirroring class `Host` of the source
(`hostname`, `transferslots`, `chunks_needed`, `chunks_owned`, `alive`,
`chunk_index`, `failcount`).  The `DB` back-reference, per-host lock and
`user`/`max_failcount` fields are dropped: locks serialize the operations we
model as atomic steps, and `user`/`max_failcount` are never read by the
modelled code paths. -/
structure Host where
  hostname : String
  transferslots : Int
  chunks_needed : List Chunk
  chunks_owned : List Chunk
  alive : Bool
  chunk_index : Nat
  failcount : Nat
deriving DecidableEq, Repr

instance : Inhabited Host :=
  ⟨{ hostname := "", transferslots := 0, chunks_needed := [], chunks_owned := [],
     alive := false, chunk_index := 0, failcount := 0 }⟩

/-- `Host.__init__`: fresh host with `max_transfers_per_host` slots,
alive, no owned chunks, `chunk_index = 0`, `failcount = 0`. -/
def mkHost (hostname : String) (chunks_needed : List Chunk)
    (max_transfers_per_host : Int) : Host :=
  { hostname := hostname, transferslots := max_transfers_per_host,
    chunks_needed := chunks_needed, chunks_owned := [], alive := true,
    chunk_index := 0, failcount := 0 }

/-- `Host.incFailCount` (source lines 349-353). -/
def Host.incFailCount (h : Host) : Host :=
  { h with failcount := h.failcount + 1 }

/-- `Host.resetFailCount` (source lines 355-358). -/
def Host.resetFailCount (h : Host) : Host :=
  { h with failcount := 0 }

/-- `Host.getSlot` (source lines 360-364): unguarded decrement. -/
def Host.getSlot (h : Host) : Host :=
  { h with transferslots := h.transferslots - 1 }

/-- `Host.freeSlot` (source lines 366-370): unguarded increment. -/
def Host.freeSlot (h : Host) : Host :=
  { h with transferslots := h.transferslots + 1 }

/-- The per-host effect of `Host.setDead` (source lines 379-387): if still
alive, clear `alive` and zero the slots.  (The database-side
`incDeadHosts` is modelled in `Database.setDead` below.) -/
def Host.setDeadLocal (h : Host) : Host :=
  if h.alive then { h with alive := false, transferslots := 0 } else h

/-- Replace the `i`-th element of a list by `f` of it (out-of-range: no-op);
used to model in-place mutation of one entry of `DB.hostlist`. -/
def updateAt {α : Type} : List α → Nat → (α → α) → List α
  | [], _, _ => []
  | x :: xs, 0, f => f x :: xs
  | x :: xs, n + 1, f => x :: updateAt xs n f

/-- The swarm database, mirroring class `Database` of the source.
`roothost` is modelled by its index `rootindex` into `hostlist`
(`main` sets `DB.roothost = DB.hostlist[0]`). -/
structure Database where
  hostlist : List Host
  hosts_with_file : Nat
  hostcount : Nat
  tindex : Nat
  chunkCount : Nat
  split_complete : Bool
  deadhosts : Nat
  rootindex : Nat
deriving Repr

/-- `Database.__init__` (source lines 398-407): `hosts_with_file` starts
at 1 (the origin already has the file). -/
def emptyDatabase : Database :=
  { hostlist := [], hosts_with_file := 1, hostcount := 0, tindex := 0,
    chunkCount := 0, split_complete := false, deadhosts := 0, rootindex := 0 }

/-- Read host `i` of the database (dead default host when out of range). -/
def Database.hostAt (db : Database) (i : Nat) : Host :=
  (db.hostlist[i]?).getD default

/-- `Database.incDeadHosts` (source lines 409-414). -/
def Database.incDeadHosts (db : Database) : Database :=
  { db with deadhosts := db.deadhosts + 1 }

/-- `Database.hostDone` (source lines 416-420). -/
def Database.hostDone (db : Database) : Database :=
  { db with hosts_with_file := db.hosts_with_file + 1 }

/-- `Host.setDead` including its call to `DB.incDeadHosts` (source lines
379-387): guarded by `if self.alive`, so `deadhosts` is incremented at most
once per host. -/
def Database.setDead (db : Database) (i : Nat) : Database :=
  if (db.hostAt i).alive then
    { db with hostlist := updateAt db.hostlist i Host.setDeadLocal,
              deadhosts := db.deadhosts + 1 }
  else db

/-- Target eligibility test of `getTransfer` (source lines 430-431):
`transferslots > 0 and alive is True`. -/
def targetOk (h : Host) : Bool :=
  decide (0 < h.transferslots) && h.alive

/-- Seed eligibility test of `getTransfer` (source lines 443-445):
`chunk in chunks_owned and transferslots > 0 and alive is True`. -/
def seedOk (h : Host) (c : Chunk) : Bool :=
  decide (c ∈ h.chunks_owned) && decide (0 < h.transferslots) && h.alive

/-- Inner seed loop of `getTransfer` (source lines 440-445): starting from
the random draw `sindex`, step `sindex = (sindex - 1) % hostcount` up to
`fuel = hostcount` times, returning the first index passing `seedOk`.
Python's nonnegative `%` on `sindex - 1` is rendered as
`(sindex + hostcount - 1) % hostcount`. -/
def seedScan (hostlist : List Host) (hostcount : Nat) (c : Chunk) :
    Nat → Nat → Option Nat
  | _, 0 => none
  | sindex, fuel + 1 =>
    let s := (sindex + hostcount - 1) % hostcount
    if seedOk ((hostlist[s]?).getD default) c then some s
    else seedScan hostlist hostcount c s fuel

/-- Chunk loop of `getTransfer` (source lines 433-449): walk the target's
`chunks_needed` in order; for each chunk draw one random start (head of
`rands`) and run `seedScan`; return the first (seed index, chunk) found,
together with the unconsumed part of the random stream. -/
def chunkScan (hostlist : List Host) (hostcount : Nat) :
    List Chunk → List Nat → Option (Nat × Chunk) × List Nat
  | [], rands => (none, rands)
  | c :: rest, rands =>
    match seedScan hostlist hostcount c (rands.headD 0) hostcount with
    | some s => (some (s, c), rands.tail)
    | none => chunkScan hostlist hostcount rest rands.tail

/-- Outer target loop of `getTransfer` (source lines 426-449): advance
`tindex = (tindex + 1) % hostcount` up to `fuel = hostcount` times; at each
eligible target run `chunkScan`.  Returns the found triple (if any), the
final `tindex`, and the unconsumed random stream. -/
def targetScan (hostlist : List Host) (hostcount : Nat) :
    Nat → List Nat → Nat → Option (Nat × Nat × Chunk) × Nat × List Nat
  | tindex, rands, 0 => (none, tindex, rands)
  | tindex, rands, fuel + 1 =>
    let t := (tindex + 1) % hostcount
    let host := (hostlist[t]?).getD default
    if targetOk host then
      match chunkScan hostlist hostcount host.chunks_needed rands with
      | (some (s, c), rands') => (some (s, t, c), t, rands')
      | (none, rands') => targetScan hostlist hostcount t rands' fuel
    else targetScan hostlist hostcount t rands fuel

/-- `Database.getTransfer` (source lines 423-451).  On success the source
calls `hostlist[sindex].getSlot()` then `hostlist[tindex].getSlot()` and
returns `(sindex, tindex, chunk)`; note it does NOT touch
`hostlist[tindex].chunks_needed`.  The random stream `rands` supplies the
values of the `random.randint(0, hostcount)` draws (one per chunk tried). -/
def Database.getTransfer (db : Database) (rands : List Nat) :
    Option (Nat × Nat × Chunk) × Database × List Nat :=
  match targetScan db.hostlist db.hostcount db.tindex rands db.hostcount with
  | (some (s, t, c), t', rands') =>
    (some (s, t, c),
     { db with
        hostlist := updateAt (updateAt db.hostlist s Host.getSlot) t Host.getSlot,
        tindex := t' },
     rands')
  | (none, t', rands') => (none, { db with tindex := t' }, rands')

/-- Python's `list.insert(i, x)`: insert at position `i`, clamped to an
append when `i ≥ len`. -/
def pyInsert (l : List Chunk) (i : Nat) (c : Chunk) : List Chunk :=
  l.insertIdx (min i l.length) c

/-- The per-chunk loop of `update_chunks_needed` (source lines 462-464):
each new chunk is inserted at `random.randint(0, len(chunks_needed)+1)`,
the draws taken from the head of `rands`. -/
def insertAllRandom : List Chunk → List Nat → List Chunk → List Chunk × List Nat
  | needed, rands, [] => (needed, rands)
  | needed, rands, c :: cs =>
    insertAllRandom (pyInsert needed (rands.headD 0) c) rands.tail cs

/-- The per-host body of `update_chunks_needed` (source lines 459-467):
if `chunk_index < chunkCount`, insert every chunk of
`roothost.chunks_owned[chunk_index:]` at a random position and advance
`chunk_index` by the number of new chunks. -/
def updateHostChunks (root_owned : List Chunk) (chunkCount : Nat) (h : Host)
    (rands : List Nat) : Host × List Nat :=
  if h.chunk_index < chunkCount then
    let new_chunks := root_owned.drop h.chunk_index
    let res := insertAllRandom h.chunks_needed rands new_chunks
    ({ h with chunks_needed := res.1,
              chunk_index := h.chunk_index + new_chunks.length }, res.2)
  else (h, rands)

/-- Host-list fold of `update_chunks_needed` (source lines 457-467): every
host is updated except the root (`if host == self.roothost: continue`),
threading the random stream left to right. -/
def updateHostsFrom (root_owned : List Chunk) (chunkCount : Nat)
    (rootindex : Nat) : List Host → Nat → List Nat → List Host × List Nat
  | [], _, rands => ([], rands)
  | h :: hs, i, rands =>
    if i = rootindex then
      let res := updateHostsFrom root_owned chunkCount rootindex hs (i + 1) rands
      (h :: res.1, res.2)
    else
      let hr := updateHostChunks root_owned chunkCount h rands
      let res := updateHostsFrom root_owned chunkCount rootindex hs (i + 1) hr.2
      (hr.1 :: res.1, res.2)

/-- `Database.update_chunks_needed` (source lines 454-467). -/
def Database.update_chunks_needed (db : Database) (rands : List Nat) :
    Database × List Nat :=
  let root_owned := (db.hostAt db.rootindex).chunks_owned
  let res := updateHostsFrom root_owned db.chunkCount db.rootindex db.hostlist 0 rands
  ({ db with hostlist := res.1 }, res.2)

/-- Outcome of the copy child process in `Transfer.run`: clean exit 0,
non-zero exit (with the results of the two subsequent `isAlive` probes), or
an exception while spawning/waiting (the `except` branch). -/
inductive TransferOutcome where
  | success
  | failure (targetAlive : Bool) (seedAlive : Bool)
  | launchError
deriving DecidableEq, Repr

/-- Result of one `Transfer.run`: the database afterwards, whether a `cat`
command was enqueued on the command queue, and whether the thread semaphore
was released. -/
structure RunResult where
  db : Database
  catPut : Bool
  semaReleased : Bool
deriving Repr

/-- The failure-path re-insertion of `Transfer.run` (source lines 522-523 and
538-539): `if chunk not in chunks_needed: chunks_needed.append(chunk)`. -/
def reinsertIfMissing (c : Chunk) (h : Host) : Host :=
  if c ∈ h.chunks_needed then h
  else { h with chunks_needed := h.chunks_needed ++ [c] }

/-- The unconditional tail of `Transfer.run` (source lines 542-544):
`target.freeSlot(); seed.freeSlot()`. -/
def freeBoth (db : Database) (sidx tidx : Nat) : Database :=
  let db1 := { db with hostlist := updateAt db.hostlist tidx Host.freeSlot }
  { db1 with hostlist := updateAt db1.hostlist sidx Host.freeSlot }

/-- `Transfer.run` (source lines 491-546) as a function of the child-process
outcome.  Success appends the chunk to `target.chunks_owned` and, when
`split_complete` and the target owns `chunkCount` chunks, calls
`DB.hostDone()` and enqueues a `cat`.  Non-zero exit re-inserts the chunk
(if absent) into `target.chunks_needed` and marks dead any host whose
liveness probe failed.  The exception branch re-inserts the chunk (if
absent) and probes nothing.  All paths free both slots and release the
thread semaphore. -/
def transferRun (db : Database) (sidx tidx : Nat) (c : Chunk)
    (oc : TransferOutcome) : RunResult :=
  match oc with
  | .success =>
    let own := fun h => { h with chunks_owned := h.chunks_owned ++ [c] }
    let db1 := { db with hostlist := updateAt db.hostlist tidx own }
    if db1.split_complete && decide ((db1.hostAt tidx).chunks_owned.length = db1.chunkCount) then
      { db := freeBoth db1.hostDone sidx tidx, catPut := true, semaReleased := true }
    else
      { db := freeBoth db1 sidx tidx, catPut := false, semaReleased := true }
  | .failure targetAlive seedAlive =>
    let db1 := { db with hostlist := updateAt db.hostlist tidx (reinsertIfMissing c) }
    let db2 := if targetAlive then db1 else db1.setDead tidx
    let db3 := if seedAlive then db2 else db2.setDead sidx
    { db := freeBoth db3 sidx tidx, catPut := false, semaReleased := true }
  | .launchError =>
    let db1 := { db with hostlist := updateAt db.hostlist tidx (reinsertIfMissing c) }
    { db := freeBoth db1 sidx tidx, catPut := false, semaReleased := true }

/-- The caller-side removal in `initiateTransfers` (source line 559):
`DB.hostlist[targetindex].chunks_needed.remove(chunk)` (Python `remove`
deletes the first occurrence, as does `List.erase`). -/
def Database.dispatchRemove (db : Database) (tidx : Nat) (c : Chunk) : Database :=
  let rm := fun h => { h with chunks_needed := h.chunks_needed.erase c }
  { db with hostlist := updateAt db.hostlist tidx rm }

/-- The dispatch loop of `initiateTransfers` (source lines 553-568), fueled:
while `hosts_with_file + deadhosts < hostcount`, ask `getTransfer` for a
triple; on success remove the chunk from the target's needed list and
record the dispatched triple.  (Worker completions run concurrently in the
source and are modelled separately by `transferRun`.) -/
def initiateLoop : Database → List Nat → Nat → List (Nat × Nat × Chunk)
  | _, _, 0 => []
  | db, rands, fuel + 1 =>
    if db.hosts_with_file + db.deadhosts < db.hostcount then
      match db.getTransfer rands with
      | (some (s, t, c), db', rands') =>
        (s, t, c) :: initiateLoop (db'.dispatchRemove t c) rands' fuel
      | (none, db', rands') => initiateLoop db' rands' fuel
    else []

/-- Database construction in `main` (source lines 703-712): the local host
first (becoming `roothost`), then the targets, all with empty needed lists;
`hostcount = len(hostlist)`. -/
def mainSetup (localhost : String) (targets : List String)
    (max_transfers_per_host : Int) : Database :=
  let hosts := mkHost localhost [] max_transfers_per_host ::
    targets.map (fun t => mkHost t [] max_transfers_per_host)
  { emptyDatabase with hostlist := hosts, hostcount := hosts.length, rootindex := 0 }

/-- Reachable states of a single host's slot counter under the protocol the
source imposes: `Host.getSlot` is only invoked after the caller observed
`transferslots > 0` (`getTransfer`, source lines 430 and 443-448),
`Host.freeSlot` is invoked exactly once per earlier `getSlot` (the worker
tail, source lines 542-544; the second index counts such pending frees),
and `Host.setDead` may fire at any time.  `HostReach h0 h k` means host
state `h` with `k` outstanding transfers is reachable from `h0`. -/
inductive HostReach (h0 : Host) : Host → Nat → Prop
  | init : HostReach h0 h0 0
  | get {h : Host} {k : Nat} : HostReach h0 h k → 0 < h.transferslots →
      HostReach h0 h.getSlot (k + 1)
  | free {h : Host} {k : Nat} : HostReach h0 h (k + 1) →
      HostReach h0 h.freeSlot k
  | die {h : Host} {k : Nat} : HostReach h0 h k →
      HostReach h0 h.setDeadLocal k

/-- Commands fed to the `CommandQueue` during finalization, tagged by host
index: `cat` jobs (enqueued by successful completing transfers) and the
end-of-run `rm` sweep enqueued by `main` (source lines 763-770). -/
inductive PoolCmd where
  | catCmd (host : Nat)
  | rmCmd (host : Nat)
deriving DecidableEq, Repr

/-- Observable events of the command queue: a child process is spawned
(`Popen`, source line 296) or reaped after exiting (`poll`, source line
309). -/
inductive PoolEv where
  | spawned (c : PoolCmd)
  | exited (c : PoolCmd)
deriving DecidableEq, Repr

/-- Joint state of the `CommandQueue` thread and `main`'s finalization
block: `cmdq` is the FIFO of enqueued commands not yet popped, `procs` the
spawned children not yet exited (the queue's `self.procs`), `rmsEnqueued`
records whether `main` has passed the `wait_for_procs(); put(rmCmd)` block
(source lines 763-770), and `trace` the sequence of spawn/exit events. -/
structure PoolState where
  cmdq : List PoolCmd
  procs : List PoolCmd
  rmsEnqueued : Bool
  trace : List PoolEv
deriving DecidableEq, Repr

/-- Interleaved small-step transitions of the command queue and `main`'s
finalization, for a fixed list `rms` of `rm` commands:
* `consume` — the `CommandQueue.run` loop pops the next command and spawns
  it (source lines 290-297; the `procsema` capacity of 500 is never reached
  in the modelled scenarios and is omitted);
* `reap` — a spawned child exits and `free()` reaps it (source lines
  304-316);
* `finalize` — `main` returns from `commandq.wait_for_procs()` — which only
  polls `self.procs` and returns as soon as that list is empty (source
  lines 318-322), regardless of commands still sitting in `cmdq` — and then
  enqueues the `rm` sweep (source lines 763-770). -/
inductive PoolStep (rms : List PoolCmd) : PoolState → PoolState → Prop
  | consume (c : PoolCmd) (q procs : List PoolCmd) (rme : Bool) (tr : List PoolEv) :
      PoolStep rms ⟨c :: q, procs, rme, tr⟩
        ⟨q, procs ++ [c], rme, tr ++ [PoolEv.spawned c]⟩
  | reap (c : PoolCmd) (q procs : List PoolCmd) (rme : Bool) (tr : List PoolEv) :
      c ∈ procs →
      PoolStep rms ⟨q, procs, rme, tr⟩
        ⟨q, procs.erase c, rme, tr ++ [PoolEv.exited c]⟩
  | finalize (q : List PoolCmd) (tr : List PoolEv) :
      PoolStep rms ⟨q, [], false, tr⟩ ⟨q ++ rms, [], true, tr⟩

/-- Reflexive-transitive closure of `PoolStep`: the states the
queue/finalizer system can reach. -/
inductive PoolReach (rms : List PoolCmd) : PoolState → PoolState → Prop
  | refl (s : PoolState) : PoolReach rms s s
  | step {a b c : PoolState} : PoolReach rms a b → PoolStep rms b c →
      PoolReach rms a c

/-- Concrete chunk constants for the scenario databases below. -/
def cA : Chunk := ⟨"a"⟩

/-- Second concrete chunk constant. -/
def cB : Chunk := ⟨"b"⟩

/-- Chunk named by a number, for the six-chunk scenario. -/
def mkC (i : Nat) : Chunk := ⟨toString i⟩

/-- Six chunks already produced by the splitter. -/
def sixChunks : List Chunk := [mkC 1, mkC 2, mkC 3, mkC 4, mkC 5, mkC 6]

/-- Two-host database: the root owns chunk `cA`, the single target still
needs it, one transfer slot each. -/
def c1db : Database :=
  { emptyDatabase with
    hostlist := [
      { mkHost "root" [] 1 with chunks_owned := [cA] },
      mkHost "t1" [cA] 1 ],
    hostcount := 2, chunkCount := 1 }

/-- Two-host database whose target has `failcount = 2` and an in-flight
chunk `cA` (already removed from its needed list by the scheduler). -/
def c3db : Database :=
  { emptyDatabase with
    hostlist := [
      { mkHost "root" [] 1 with chunks_owned := [cA] },
      { mkHost "t1" [] 1 with failcount := 2 } ],
    hostcount := 2, chunkCount := 1 }

/-- One origin owning six chunks plus three targets needing all six, with
`maxSlotsPerHost = 1` (the match-fairness scenario of the spec). -/
def c8db : Database :=
  { emptyDatabase with
    hostlist := [
      { mkHost "root" [] 1 with chunks_owned := sixChunks },
      mkHost "h1" sixChunks 1,
      mkHost "h2" sixChunks 1,
      mkHost "h3" sixChunks 1 ],
    hostcount := 4, chunkCount := 6 }

/-- Host used in the random-insertion counterexample: needed list `[cB]`,
`chunk_index = 0`. -/
def h4 : Host := { mkHost "x" [cB] 1 with chunk_index := 0 }

/-- One full scheduler round on the database: `getTransfer` with a single
random draw `r`, then the caller-side removal from the needed list
(`initiateTransfers`, source line 559), then a successful `Transfer.run`.
Returns the matched triple and the database after the worker completed. -/
def matchComplete (db : Database) (r : Nat) :
    Option (Nat × Nat × Chunk) × Database :=
  match db.getTransfer [r] with
  | (some (s, t, c), db', _) =>
    (some (s, t, c), (transferRun (db'.dispatchRemove t c) s t c .success).db)
  | (none, db', _) => (none, db')

/-- The targets selected by three consecutive completed scheduler rounds on
`c8db`, given the three seed-selection random draws. -/
def c8targets (r1 r2 r3 : Nat) : Option Nat × Option Nat × Option Nat :=
  let m1 := matchComplete c8db r1
  let m2 := matchComplete m1.2 r2
  let m3 := matchComplete m2.2 r3
  (m1.1.map (fun p => p.2.1), m2.1.map (fun p => p.2.1),
   m3.1.map (fun p => p.2.1))

/-! ## Helper lemmas -/

lemma updateAt_length {α : Type} :
    ∀ (l : List α) (i : Nat) (f : α → α), (updateAt l i f).length = l.length
  | [], _, _ => rfl
  | _ :: xs, 0, _ => rfl
  | x :: xs, i + 1, f => by simp [updateAt, updateAt_length xs i f]

lemma getElem?_updateAt_self {α : Type} :
    ∀ (l : List α) (i : Nat) (f : α → α), (updateAt l i f)[i]? = (l[i]?).map f
  | [], i, f => by cases i <;> simp [updateAt]
  | x :: xs, 0, f => by simp [updateAt]
  | x :: xs, i + 1, f => by
      simp [updateAt, getElem?_updateAt_self xs i f]

lemma getElem?_updateAt_ne {α : Type} :
    ∀ (l : List α) (i j : Nat) (f : α → α), i ≠ j →
      (updateAt l i f)[j]? = l[j]?
  | [], _, _, _, _ => by simp [updateAt]
  | x :: xs, 0, 0, f, h => absurd rfl h
  | x :: xs, 0, j + 1, f, h => by simp [updateAt]
  | x :: xs, i + 1, 0, f, h => by simp [updateAt]
  | x :: xs, i + 1, j + 1, f, h => by
      simpa [updateAt] using getElem?_updateAt_ne xs i j f (fun e => h (by omega))

/-- Any host projection preserved by `f` is preserved at every index by
`updateAt · · f`. -/
lemma proj_updateAt {β : Type} (g : Host → β) (l : List Host) (i j : Nat)
    (f : Host → Host) (hf : ∀ h, g (f h) = g h) :
    g (((updateAt l i f)[j]?).getD default) = g ((l[j]?).getD default) := by
  rcases eq_or_ne i j with rfl | hne
  · rw [getElem?_updateAt_self]
    cases l[i]? <;> simp [hf]
  · rw [getElem?_updateAt_ne _ _ _ _ hne]

lemma targetOk_default : targetOk default = false := by decide

lemma seedOk_default (c : Chunk) : seedOk default c = false := by
  simp [seedOk, default]

lemma targetOk_lt {l : List Host} {t : Nat}
    (h : targetOk ((l[t]?).getD default) = true) : t < l.length := by
  by_contra hlt
  rw [List.getElem?_eq_none (by omega)] at h
  simp [targetOk, default] at h

lemma seedOk_lt {l : List Host} {s : Nat} {c : Chunk}
    (h : seedOk ((l[s]?).getD default) c = true) : s < l.length := by
  by_contra hlt
  rw [List.getElem?_eq_none (by omega)] at h
  simp [seedOk, default] at h

lemma seedScan_some {l : List Host} {n : Nat} {c : Chunk} :
    ∀ {si fuel s : Nat}, seedScan l n c si fuel = some s →
      seedOk ((l[s]?).getD default) c = true := by
  intro si fuel
  induction fuel generalizing si with
  | zero => intro s h; simp [seedScan] at h
  | succ k ih =>
    intro s h
    simp only [seedScan] at h
    split at h
    · cases h; assumption
    · exact ih h

lemma chunkScan_some {l : List Host} {n : Nat} :
    ∀ {needed : List Chunk} {rands : List Nat} {s : Nat} {c : Chunk}
      {r' : List Nat},
      chunkScan l n needed rands = (some (s, c), r') →
      c ∈ needed ∧ seedOk ((l[s]?).getD default) c = true := by
  intro needed
  induction needed with
  | nil => intro rands s c r' h; simp [chunkScan] at h
  | cons c0 rest ih =>
    intro rands s c r' h
    simp only [chunkScan] at h
    split at h
    · rename_i heq
      cases h
      exact ⟨List.mem_cons_self _ _, seedScan_some heq⟩
    · obtain ⟨hm, hok⟩ := ih h
      exact ⟨List.mem_cons_of_mem _ hm, hok⟩

lemma targetScan_some {l : List Host} {n : Nat} :
    ∀ {fuel ti : Nat} {rands : List Nat} {s t c t' r'},
      targetScan l n ti rands fuel = (some (s, t, c), t', r') →
      t' = t ∧ targetOk ((l[t]?).getD default) = true ∧
        c ∈ ((l[t]?).getD default).chunks_needed ∧
        seedOk ((l[s]?).getD default) c = true := by
  intro fuel
  induction fuel with
  | zero => intro ti rands s t c t' r' h; simp [targetScan] at h
  | succ k ih =>
    intro ti rands s t c t' r' h
    simp only [targetScan] at h
    split at h
    · split at h
      · rename_i htgt hscan
        obtain ⟨⟨hm, hok⟩⟩ := And.intro (chunkScan_some hscan) trivial
        cases h
        exact ⟨rfl, by assumption, hm, hok⟩
      · exact ih h
    · exact ih h

lemma insertIdx_perm {α : Type} :
    ∀ (n : Nat) (a : α) (l : List α), n ≤ l.length →
      (l.insertIdx n a).Perm (a :: l)
  | 0, a, l, _ => by simp
  | n + 1, a, [], h => absurd h (by simp)
  | n + 1, a, x :: l, h => by
      rw [List.insertIdx_succ_cons]
      exact ((insertIdx_perm n a l (by simpa using h)).cons x).trans
        (List.Perm.swap a x l)

lemma insertAllRandom_perm :
    ∀ (cs needed : List Chunk) (rands : List Nat),
      (insertAllRandom needed rands cs).1.Perm (needed ++ cs)
  | [], needed, rands => by simp [insertAllRandom]
  | c :: cs, needed, rands => by
      have h1 : (pyInsert needed (rands.headD 0) c).Perm (c :: needed) :=
        insertIdx_perm _ _ _ (min_le_right _ _)
      have h2 := insertAllRandom_perm cs (pyInsert needed (rands.headD 0) c) rands.tail
      exact h2.trans ((h1.append_right cs).trans List.perm_middle.symm)

lemma indexOf_insertIdx (c : Chunk) :
    ∀ (n : Nat) (l : List Chunk), c ∉ l → n ≤ l.length →
      (l.insertIdx n c).indexOf c = n
  | 0, l, _, _ => by simp
  | n + 1, [], _, h => absurd h (by simp)
  | n + 1, x :: l, hc, h => by
      rw [List.insertIdx_succ_cons]
      rw [List.indexOf_cons_ne _
        (fun e => hc (by rw [← e]; exact List.mem_cons_self x l))]
      rw [indexOf_insertIdx c n l (fun m => hc (List.mem_cons_of_mem _ m))
        (by simpa using h)]

lemma min_fiber (len pos : Nat) (hpos : pos ≤ len) :
    ((Finset.range (len + 2)).filter (fun r => min r len = pos)).card
      = if pos = len then 2 else 1 := by
  rcases eq_or_ne pos len with rfl | hne
  · have : (Finset.range (pos + 2)).filter (fun r => min r pos = pos)
        = {pos, pos + 1} := by
      ext r
      simp only [Finset.mem_filter, Finset.mem_range, Finset.mem_insert,
        Finset.mem_singleton, Nat.min_def]
      split <;> omega
    rw [this, if_pos rfl]
    rw [Finset.card_insert_of_not_mem (by simp), Finset.card_singleton]
  · have hlt : pos < len := lt_of_le_of_ne hpos hne
    have : (Finset.range (len + 2)).filter (fun r => min r len = pos)
        = {pos} := by
      ext r
      simp only [Finset.mem_filter, Finset.mem_range, Finset.mem_singleton,
        Nat.min_def]
      split <;> omega
    rw [this, if_neg hne, Finset.card_singleton]

lemma setDeadLocal_slots (h : Host) :
    h.setDeadLocal.transferslots = 0 ∨
      h.setDeadLocal.transferslots = h.transferslots := by
  unfold Host.setDeadLocal
  split
  · exact Or.inl rfl
  · exact Or.inr rfl

lemma hostReach_bound {h0 h : Host} {k : Nat}
    (hr : HostReach h0 h k) (h0nn : 0 ≤ h0.transferslots) :
    0 ≤ h.transferslots ∧ h.transferslots + (k : Int) ≤ h0.transferslots := by
  induction hr with
  | init => constructor <;> omega
  | get hr hpos ih =>
    obtain ⟨a, b⟩ := ih
    simp only [Host.getSlot]
    constructor <;> push_cast <;> omega
  | free hr ih =>
    obtain ⟨a, b⟩ := ih
    simp only [Host.freeSlot]
    push_cast at b
    constructor <;> omega
  | die hr ih =>
    obtain ⟨a, b⟩ := ih
    rcases setDeadLocal_slots _ with hsd | hsd <;> rw [hsd] <;> constructor <;> omega

lemma proj_setDead {β : Type} (g : Host → β) (db : Database) (i j : Nat)
    (hg : ∀ h, g h.setDeadLocal = g h) :
    g ((db.setDead i).hostAt j) = g (db.hostAt j) := by
  unfold Database.setDead
  split
  · simp only [Database.hostAt]
    exact proj_updateAt g db.hostlist i j _ hg
  · rfl

lemma proj_freeBoth {β : Type} (g : Host → β) (db : Database) (s t j : Nat)
    (hg : ∀ h, g h.freeSlot = g h) :
    g ((freeBoth db s t).hostAt j) = g (db.hostAt j) := by
  unfold freeBoth
  simp only [Database.hostAt]
  rw [proj_updateAt g _ s j _ hg, proj_updateAt g _ t j _ hg]

/-! ## Claim theorems -/

/-- C1, counterexample.  On the two-host database `c1db`, `getTransfer`
returns the triple `(0, 1, cA)`, yet in the database state at the moment of
return the chunk `cA` is still in the target's `chunks_needed` list — so the
removal does NOT happen inside `match()`/`getTransfer`, contradicting the
claim that the triple is returned with "the chunk already removed from the
target's needed list". -/
theorem C1_counterexample :
    (c1db.getTransfer [0]).1 = some (0, 1, cA) ∧
    cA ∈ (((c1db.getTransfer [0]).2.1).hostAt 1).chunks_needed := by decide

/-- C3, counterexample.  With the target's `failcount` at 2, a worker run
with child exit 0 leaves `failcount` at 2 (the claim says it is reset to 0),
and a worker run with non-zero child exit also leaves it at 2 (the claim
says it is incremented to 3): `Transfer.run` never calls
`Host.resetFailCount` or `Host.incFailCount`. -/
theorem C3_counterexample :
    ((transferRun c3db 0 1 cA .success).db.hostAt 1).failcount ≠ 0 ∧
    ((transferRun c3db 0 1 cA (.failure true true)).db.hostAt 1).failcount ≠ 3 := by
  decide

/-- C4, counterexample.  For a host whose needed list is `[cB]` (length 1)
receiving the fresh chunk `cA`, the source draws
`random.randint(0, len+1)`, i.e. one of the THREE equally likely values
`{0, 1, 2}` (`Finset.range 3`).  Exactly 1 of the 3 draws puts `cA` at
position 0 but 2 of the 3 put it at position 1 (Python's `list.insert`
clamps an index past the end to an append), so the two valid insertion
positions do not have equal probability, contradicting the uniformity
claim. -/
theorem C4_counterexample :
    ((Finset.range 3).filter
        (fun r => ((updateHostChunks [cA] 1 h4 [r]).1).chunks_needed
          = [cA, cB])).card = 1 ∧
    ((Finset.range 3).filter
        (fun r => ((updateHostChunks [cA] 1 h4 [r]).1).chunks_needed
          = [cB, cA])).card = 2 := by decide

/-- C7.  The dispatch loop of `initiateTransfers` initiates transfers only
while `hosts_with_file + deadhosts < hostcount` — once the guard fails no
transfer is dispatched — and on the single-host cluster built by `main`
(origin only: `hostcount = 1`, `hosts_with_file = 1`) it dispatches nothing
and returns immediately, for any fuel and any random stream. -/
theorem C7_guard :
    (∀ (db : Database) (rands : List Nat) (fuel : Nat),
        ¬ db.hosts_with_file + db.deadhosts < db.hostcount →
        initiateLoop db rands fuel = []) ∧
    (∀ (rands : List Nat) (fuel : Nat),
        initiateLoop (mainSetup "origin" [] 6) rands fuel = []) := by
  have hgen : ∀ (db : Database) (rands : List Nat) (fuel : Nat),
      ¬ db.hosts_with_file + db.deadhosts < db.hostcount →
      initiateLoop db rands fuel = [] := by
    intro db rands fuel hguard
    cases fuel with
    | zero => rfl
    | succ k => simp [initiateLoop, hguard]
  exact ⟨hgen, fun rands fuel => hgen _ rands fuel (by decide)⟩

/-- Witness for `C7_guard` at a concrete input. -/
theorem C7_witness : initiateLoop (mainSetup "origin" [] 6) [1, 2] 7 = [] :=
  C7_guard.1 (mainSetup "origin" [] 6) [1, 2] 7 (by decide)

/-- C8.  On `c8db` (1 origin owning six chunks + 3 targets,
`maxSlotsPerHost = 1`), the first three successful scheduler rounds select
targets 1, 2 and 3 — three pairwise distinct targets — whatever the three
`random.randint(0, 4)` seed draws (all 5 possible values each) turn out to
be, because the target cursor `tindex` advances in rotating order modulo
`hostcount`. -/
theorem C8_round_robin_targets :
    ∀ r1 r2 r3 : Fin 5,
      c8targets r1.val r2.val r3.val = (some 1, some 2, some 3) := by decide

/-- C9, failing execution.  Start from the finalization point with one
`cat` command enqueued but not yet popped by the `CommandQueue` thread and
no spawned child (`procs = []`).  `wait_for_procs` (which only polls
`procs`) returns at once, `main` enqueues the `rm` sweep, and the queue
thread then spawns the `cat` and immediately afterwards the `rm`: the
reachable final state's trace contains the `rm` spawn while the `cat` child
has never exited.  This contradicts the claim that no `rm` child starts
before every previously enqueued `cat` child has exited. -/
theorem C9_rm_spawn_race :
    PoolReach [PoolCmd.rmCmd 0] ⟨[PoolCmd.catCmd 0], [], false, []⟩
      ⟨[], [PoolCmd.catCmd 0, PoolCmd.rmCmd 0], true,
        [PoolEv.spawned (PoolCmd.catCmd 0), PoolEv.spawned (PoolCmd.rmCmd 0)]⟩ ∧
    PoolEv.exited (PoolCmd.catCmd 0) ∉
      [PoolEv.spawned (PoolCmd.catCmd 0), PoolEv.spawned (PoolCmd.rmCmd 0)] := by
  constructor
  · have h1 : PoolStep [PoolCmd.rmCmd 0]
        ⟨[PoolCmd.catCmd 0], [], false, []⟩
        ⟨[PoolCmd.catCmd 0, PoolCmd.rmCmd 0], [], true, []⟩ :=
      PoolStep.finalize [PoolCmd.catCmd 0] []
    have h2 : PoolStep [PoolCmd.rmCmd 0]
        ⟨[PoolCmd.catCmd 0, PoolCmd.rmCmd 0], [], true, []⟩
        ⟨[PoolCmd.rmCmd 0], [PoolCmd.catCmd 0], true,
          [PoolEv.spawned (PoolCmd.catCmd 0)]⟩ :=
      PoolStep.consume (PoolCmd.catCmd 0) [PoolCmd.rmCmd 0] [] true []
    have h3 : PoolStep [PoolCmd.rmCmd 0]
        ⟨[PoolCmd.rmCmd 0], [PoolCmd.catCmd 0], true,
          [PoolEv.spawned (PoolCmd.catCmd 0)]⟩
        ⟨[], [PoolCmd.catCmd 0, PoolCmd.rmCmd 0], true,
          [PoolEv.spawned (PoolCmd.catCmd 0), PoolEv.spawned (PoolCmd.rmCmd 0)]⟩ :=
      PoolStep.consume (PoolCmd.rmCmd 0) [] [PoolCmd.catCmd 0] true
        [PoolEv.spawned (PoolCmd.catCmd 0)]
    exact PoolReach.step (PoolReach.step (PoolReach.step (PoolReach.refl _) h1) h2) h3
  · decide

/-- C6.  Whenever the origin/root host's needed list is empty — as `main`
creates it (`Host(gethostname(), DB, [], …)`) and as
`update_chunks_needed` keeps it (the root is skipped) — `getTransfer` never
returns a triple whose target index is the root: a target is only returned
from inside the loop over its `chunks_needed`, which for the root is the
empty list. -/
theorem C6_origin_never_target (db : Database) (rands : List Nat)
    (s t : Nat) (c : Chunk)
    (hroot : (db.hostAt db.rootindex).chunks_needed = [])
    (h : (db.getTransfer rands).1 = some (s, t, c)) :
    t ≠ db.rootindex := by
  intro hteq
  unfold Database.getTransfer at h
  rcases hscan : targetScan db.hostlist db.hostcount db.tindex rands db.hostcount
    with ⟨o, t', r'⟩
  rw [hscan] at h
  cases o with
  | none => simp at h
  | some tri =>
    obtain ⟨s0, t0, c0⟩ := tri
    simp only [Option.some.injEq, Prod.mk.injEq] at h
    obtain ⟨rfl, rfl, rfl⟩ := h
    obtain ⟨-, -, hmem, -⟩ := targetScan_some hscan
    rw [hteq] at hmem
    unfold Database.hostAt at hroot
    rw [hroot] at hmem
    exact List.not_mem_nil _ hmem

/-- Witness for `C6_origin_never_target` at a concrete input: on `c1db`
(root needed list empty) the returned target 1 differs from the root
index 0. -/
theorem C6_witness : (1 : Nat) ≠ c1db.rootindex :=
  C6_origin_never_target c1db [0] 0 1 cA (by decide) (by decide)

/-- C2.  Under the protocol of the source — `getSlot` only invoked when the
caller has just observed `transferslots > 0` (as `getTransfer` does),
`freeSlot` invoked exactly once per outstanding `getSlot` (the worker
tail), `setDead` at any time — every reachable slot count of a host
initialized with `maxSlotsPerHost = M ≥ 0` satisfies
`0 ≤ transferslots ≤ M`.  In particular a `freeSlot` arriving after
`setDead` zeroed the count never drives it above `M`. -/
theorem C2_slot_invariant (name : String) (M : Int) (hM : 0 ≤ M)
    (h : Host) (k : Nat) (hr : HostReach (mkHost name [] M) h k) :
    0 ≤ h.transferslots ∧ h.transferslots ≤ M := by
  obtain ⟨a, b⟩ := hostReach_bound hr hM
  have hms : (mkHost name [] M).transferslots = M := rfl
  rw [hms] at b
  exact ⟨a, by omega⟩

/-- Witness for `C2_slot_invariant`: one `getSlot` taken from a fresh host
with 6 slots. -/
theorem C2_witness :
    0 ≤ ((mkHost "x" [] 6).getSlot).transferslots ∧
    ((mkHost "x" [] 6).getSlot).transferslots ≤ 6 :=
  C2_slot_invariant "x" 6 (by decide) ((mkHost "x" [] 6).getSlot) 1
    (HostReach.get HostReach.init (by decide))

/-- C3, amended.  `Transfer.run` leaves every host's `failcount` unchanged
on every outcome — child exit 0, non-zero exit (with any probe results),
or launch exception: the source defines `Host.incFailCount` and
`Host.resetFailCount` but never calls them. -/
theorem C3_amended (db : Database) (s t : Nat) (c : Chunk)
    (oc : TransferOutcome) (i : Nat) :
    ((transferRun db s t c oc).db.hostAt i).failcount
      = (db.hostAt i).failcount := by
  have hfree : ∀ h : Host, h.freeSlot.failcount = h.failcount := fun h => rfl
  have hdead : ∀ h : Host, h.setDeadLocal.failcount = h.failcount := by
    intro h; unfold Host.setDeadLocal; split <;> rfl
  have hre : ∀ h : Host, (reinsertIfMissing c h).failcount = h.failcount := by
    intro h; unfold reinsertIfMissing; split <;> rfl
  cases oc with
  | success =>
    simp only [transferRun]
    split
    · rw [proj_freeBoth Host.failcount _ s t i hfree]
      exact proj_updateAt Host.failcount db.hostlist t i _ (fun h => rfl)
    · rw [proj_freeBoth Host.failcount _ s t i hfree]
      exact proj_updateAt Host.failcount db.hostlist t i _ (fun h => rfl)
  | failure tA sA =>
    simp only [transferRun]
    cases tA <;> cases sA <;>
      simp only [Bool.false_eq_true, if_true, if_false, ite_true, ite_false] <;>
      rw [proj_freeBoth Host.failcount _ s t i hfree] <;>
      first
        | (rw [proj_setDead Host.failcount _ s i hdead,
              proj_setDead Host.failcount _ t i hdead]
           exact proj_updateAt Host.failcount db.hostlist t i _ hre)
        | (rw [proj_setDead Host.failcount _ s i hdead]
           exact proj_updateAt Host.failcount db.hostlist t i _ hre)
        | (rw [proj_setDead Host.failcount _ t i hdead]
           exact proj_updateAt Host.failcount db.hostlist t i _ hre)
        | exact proj_updateAt Host.failcount db.hostlist t i _ hre
  | launchError =>
    simp only [transferRun]
    rw [proj_freeBoth Host.failcount _ s t i hfree]
    exact proj_updateAt Host.failcount db.hostlist t i _ hre

lemma getTransfer_fst (db : Database) (rands : List Nat) :
    (db.getTransfer rands).1
      = (targetScan db.hostlist db.hostcount db.tindex rands db.hostcount).1 := by
  unfold Database.getTransfer
  rcases hscan : targetScan db.hostlist db.hostcount db.tindex rands db.hostcount
    with ⟨o, t', r'⟩
  cases o <;> rfl

lemma getTransfer_some_state (db : Database) (rands : List Nat)
    (s t : Nat) (c : Chunk) (t' : Nat) (r' : List Nat)
    (hscan : targetScan db.hostlist db.hostcount db.tindex rands db.hostcount
      = (some (s, t, c), t', r')) :
    db.getTransfer rands
      = (some (s, t, c),
         { db with
            hostlist := updateAt (updateAt db.hostlist s Host.getSlot) t Host.getSlot,
            tindex := t' },
         r') := by
  unfold Database.getTransfer
  rw [hscan]

/-- C1, amended.  When `getTransfer` returns `(s, t, c)`, the seed's and
the target's slot counts are already decremented in the returned database
state, but the chunk is NOT yet removed from the target's needed list —
it is still a member; the removal is performed afterwards by the caller
`initiateTransfers` (`chunks_needed.remove(chunk)`, modelled by
`dispatchRemove`), which erases exactly that chunk. -/
theorem C1_amended (db : Database) (rands : List Nat) (s t : Nat) (c : Chunk)
    (h : (db.getTransfer rands).1 = some (s, t, c)) (hst : s ≠ t) :
    c ∈ (((db.getTransfer rands).2.1).hostAt t).chunks_needed ∧
    (((db.getTransfer rands).2.1).hostAt t).transferslots
      = (db.hostAt t).transferslots - 1 ∧
    (((db.getTransfer rands).2.1).hostAt s).transferslots
      = (db.hostAt s).transferslots - 1 ∧
    ((((db.getTransfer rands).2.1).dispatchRemove t c).hostAt t).chunks_needed
      = ((db.hostAt t).chunks_needed).erase c := by
  have hfst := (getTransfer_fst db rands).symm.trans h
  rcases hscan : targetScan db.hostlist db.hostcount db.tindex rands db.hostcount
    with ⟨o, t', r'⟩
  rw [hscan] at hfst
  have ho : o = some (s, t, c) := hfst
  subst ho
  have hGT := getTransfer_some_state db rands s t c t' r' hscan
  obtain ⟨-, htOk, hmem, hsOk⟩ := targetScan_some hscan
  have htlen : t < db.hostlist.length := targetOk_lt htOk
  have hslen : s < db.hostlist.length := seedOk_lt hsOk
  rw [hGT]
  dsimp only [Database.dispatchRemove, Database.hostAt]
  refine ⟨?_, ?_, ?_, ?_⟩
  · rw [proj_updateAt Host.chunks_needed _ t t Host.getSlot (fun h => rfl),
        proj_updateAt Host.chunks_needed _ s t Host.getSlot (fun h => rfl)]
    exact hmem
  · rw [getElem?_updateAt_self, getElem?_updateAt_ne db.hostlist s t _ hst,
        List.getElem?_eq_getElem htlen]
    rfl
  · rw [getElem?_updateAt_ne _ t s _ (fun e => hst e.symm),
        getElem?_updateAt_self, List.getElem?_eq_getElem hslen]
    rfl
  · rw [getElem?_updateAt_self, getElem?_updateAt_self,
        getElem?_updateAt_ne db.hostlist s t _ hst,
        List.getElem?_eq_getElem htlen]
    rfl

/-- Witness for `C1_amended` at the concrete database `c1db`. -/
theorem C1_amended_witness :
    cA ∈ (((c1db.getTransfer [0]).2.1).hostAt 1).chunks_needed ∧
    (((c1db.getTransfer [0]).2.1).hostAt 1).transferslots
      = (c1db.hostAt 1).transferslots - 1 ∧
    (((c1db.getTransfer [0]).2.1).hostAt 0).transferslots
      = (c1db.hostAt 0).transferslots - 1 ∧
    ((((c1db.getTransfer [0]).2.1).dispatchRemove 1 cA).hostAt 1).chunks_needed
      = ((c1db.hostAt 1).chunks_needed).erase cA :=
  C1_amended c1db [0] 0 1 cA (by decide) (by decide)


lemma needed_transferRun_success (db : Database) (s t : Nat) (c : Chunk)
    (j : Nat) :
    ((transferRun db s t c .success).db.hostAt j).chunks_needed
      = (db.hostAt j).chunks_needed := by
  have hfree : ∀ h : Host, h.freeSlot.chunks_needed = h.chunks_needed :=
    fun h => rfl
  simp only [transferRun]
  split <;> rw [proj_freeBoth Host.chunks_needed _ s t j hfree] <;>
    exact proj_updateAt Host.chunks_needed db.hostlist t j _ (fun h => rfl)

lemma needed_transferRun_failure (db : Database) (s t : Nat) (c : Chunk)
    (tA sA : Bool) (j : Nat) :
    ((transferRun db s t c (.failure tA sA)).db.hostAt j).chunks_needed
      = (((updateAt db.hostlist t (reinsertIfMissing c))[j]?).getD
          default).chunks_needed := by
  have hfree : ∀ h : Host, h.freeSlot.chunks_needed = h.chunks_needed :=
    fun h => rfl
  have hdead : ∀ h : Host, h.setDeadLocal.chunks_needed = h.chunks_needed := by
    intro h; unfold Host.setDeadLocal; split <;> rfl
  simp only [transferRun]
  cases tA <;> cases sA <;>
    simp only [Bool.false_eq_true, if_true, if_false, ite_true, ite_false] <;>
    rw [proj_freeBoth Host.chunks_needed _ s t j hfree] <;>
    first
      | (rw [proj_setDead Host.chunks_needed _ s j hdead,
            proj_setDead Host.chunks_needed _ t j hdead]; rfl)
      | (rw [proj_setDead Host.chunks_needed _ s j hdead]; rfl)
      | (rw [proj_setDead Host.chunks_needed _ t j hdead]; rfl)
      | rfl

lemma needed_transferRun_launch (db : Database) (s t : Nat) (c : Chunk)
    (j : Nat) :
    ((transferRun db s t c .launchError).db.hostAt j).chunks_needed
      = (((updateAt db.hostlist t (reinsertIfMissing c))[j]?).getD
          default).chunks_needed := by
  have hfree : ∀ h : Host, h.freeSlot.chunks_needed = h.chunks_needed :=
    fun h => rfl
  simp only [transferRun]
  rw [proj_freeBoth Host.chunks_needed _ s t j hfree]
  rfl

/-- C5.  For a chunk the scheduler removed from the target's needed list at
dispatch (`c ∉ needed` at worker start), `Transfer.run` re-inserts it iff
the transfer fails: on child exit 0 the needed list is untouched (so the
chunk stays out), while on non-zero exit (with any liveness-probe results)
and on a launch exception the chunk is appended at the tail of the needed
list. -/
theorem C5_reinsert_iff_failure (db : Database) (s t : Nat) (c : Chunk)
    (tA sA : Bool) (ht : t < db.hostlist.length)
    (h0 : c ∉ (db.hostAt t).chunks_needed) :
    c ∉ ((transferRun db s t c .success).db.hostAt t).chunks_needed ∧
    ((transferRun db s t c (.failure tA sA)).db.hostAt t).chunks_needed
      = (db.hostAt t).chunks_needed ++ [c] ∧
    ((transferRun db s t c .launchError).db.hostAt t).chunks_needed
      = (db.hostAt t).chunks_needed ++ [c] := by
  have hAt : db.hostAt t = db.hostlist[t] := by
    simp [Database.hostAt, List.getElem?_eq_getElem ht]
  have h0g : c ∉ (db.hostlist[t]).chunks_needed := by rw [← hAt]; exact h0
  have hkey : (((updateAt db.hostlist t (reinsertIfMissing c))[t]?).getD
        default).chunks_needed
      = (db.hostAt t).chunks_needed ++ [c] := by
    rw [getElem?_updateAt_self, List.getElem?_eq_getElem ht]
    simp only [Option.map_some', Option.getD_some]
    unfold reinsertIfMissing
    rw [if_neg h0g, hAt]
  refine ⟨?_, ?_, ?_⟩
  · rw [needed_transferRun_success db s t c t]
    exact h0
  · rw [needed_transferRun_failure db s t c tA sA t]
    exact hkey
  · rw [needed_transferRun_launch db s t c t]
    exact hkey

/-- Witness for `C5_reinsert_iff_failure` on the concrete database `c3db`
(chunk `cA` in flight to target 1, not in its needed list). -/
theorem C5_witness :
    cA ∉ ((transferRun c3db 0 1 cA .success).db.hostAt 1).chunks_needed ∧
    ((transferRun c3db 0 1 cA (.failure true true)).db.hostAt 1).chunks_needed
      = (c3db.hostAt 1).chunks_needed ++ [cA] ∧
    ((transferRun c3db 0 1 cA .launchError).db.hostAt 1).chunks_needed
      = (c3db.hostAt 1).chunks_needed ++ [cA] :=
  C5_reinsert_iff_failure c3db 0 1 cA true true (by decide) (by decide)

lemma reinsert_slots (c : Chunk) (h : Host) :
    (reinsertIfMissing c h).transferslots = h.transferslots := by
  unfold reinsertIfMissing; split <;> rfl

lemma reinsert_alive (c : Chunk) (h : Host) :
    (reinsertIfMissing c h).alive = h.alive := by
  unfold reinsertIfMissing; split <;> rfl

lemma reinsert_owned (c : Chunk) (h : Host) :
    (reinsertIfMissing c h).chunks_owned = h.chunks_owned := by
  unfold reinsertIfMissing; split <;> rfl

/-- C10.  On the exception branch of `Transfer.run` (spawn/wait raised,
rather than the child exiting non-zero), the worker: re-inserts the chunk
into the target's needed list only if it is not already present; still
releases the seed's and the target's transfer slots (each goes up by one)
and the thread semaphore; performs no liveness probe, so no host's `alive`
flag changes and `deadhosts` is unchanged; and leaves every host's owned
set unchanged. -/
theorem C10_exception_path (db : Database) (s t : Nat) (c : Chunk)
    (hs : s < db.hostlist.length) (ht : t < db.hostlist.length)
    (hst : s ≠ t) :
    ((transferRun db s t c .launchError).db.hostAt t).chunks_needed
      = (if c ∈ (db.hostAt t).chunks_needed then (db.hostAt t).chunks_needed
         else (db.hostAt t).chunks_needed ++ [c]) ∧
    ((transferRun db s t c .launchError).db.hostAt t).transferslots
      = (db.hostAt t).transferslots + 1 ∧
    ((transferRun db s t c .launchError).db.hostAt s).transferslots
      = (db.hostAt s).transferslots + 1 ∧
    (∀ i, ((transferRun db s t c .launchError).db.hostAt i).alive
      = (db.hostAt i).alive) ∧
    (transferRun db s t c .launchError).db.deadhosts = db.deadhosts ∧
    (∀ i, ((transferRun db s t c .launchError).db.hostAt i).chunks_owned
      = (db.hostAt i).chunks_owned) ∧
    (transferRun db s t c .launchError).semaReleased = true := by
  have hAt : db.hostAt t = db.hostlist[t] := by
    simp [Database.hostAt, List.getElem?_eq_getElem ht]
  have hAs : db.hostAt s = db.hostlist[s] := by
    simp [Database.hostAt, List.getElem?_eq_getElem hs]
  have hfreeA : ∀ h : Host, h.freeSlot.alive = h.alive := fun h => rfl
  have hfreeO : ∀ h : Host, h.freeSlot.chunks_owned = h.chunks_owned :=
    fun h => rfl
  refine ⟨?_, ?_, ?_, ?_, rfl, ?_, rfl⟩
  · rw [needed_transferRun_launch db s t c t]
    rw [getElem?_updateAt_self, List.getElem?_eq_getElem ht]
    simp only [Option.map_some', Option.getD_some]
    unfold reinsertIfMissing
    rw [hAt]
    split <;> rfl
  · simp only [transferRun, freeBoth, Database.hostAt]
    rw [getElem?_updateAt_ne _ s t _ hst, getElem?_updateAt_self,
      getElem?_updateAt_self, List.getElem?_eq_getElem ht]
    simp only [Option.map_some', Option.getD_some, Host.freeSlot,
      reinsert_slots, hAt]
  · simp only [transferRun, freeBoth, Database.hostAt]
    rw [getElem?_updateAt_self, getElem?_updateAt_ne _ t s _ (fun e => hst e.symm),
      getElem?_updateAt_ne _ t s _ (fun e => hst e.symm),
      List.getElem?_eq_getElem hs]
    simp only [Option.map_some', Option.getD_some, Host.freeSlot, hAs]
  · intro i
    simp only [transferRun]
    rw [proj_freeBoth Host.alive _ s t i hfreeA]
    exact proj_updateAt Host.alive db.hostlist t i _ (reinsert_alive c)
  · intro i
    simp only [transferRun]
    rw [proj_freeBoth Host.chunks_owned _ s t i hfreeO]
    exact proj_updateAt Host.chunks_owned db.hostlist t i _ (reinsert_owned c)

/-- Witness for `C10_exception_path` on the concrete database `c3db`. -/
theorem C10_witness :
    ((transferRun c3db 0 1 cA .launchError).db.hostAt 1).chunks_needed
      = (if cA ∈ (c3db.hostAt 1).chunks_needed then (c3db.hostAt 1).chunks_needed
         else (c3db.hostAt 1).chunks_needed ++ [cA]) ∧
    ((transferRun c3db 0 1 cA .launchError).db.hostAt 1).transferslots
      = (c3db.hostAt 1).transferslots + 1 ∧
    ((transferRun c3db 0 1 cA .launchError).db.hostAt 0).transferslots
      = (c3db.hostAt 0).transferslots + 1 ∧
    (∀ i, ((transferRun c3db 0 1 cA .launchError).db.hostAt i).alive
      = (c3db.hostAt i).alive) ∧
    (transferRun c3db 0 1 cA .launchError).db.deadhosts = c3db.deadhosts ∧
    (∀ i, ((transferRun c3db 0 1 cA .launchError).db.hostAt i).chunks_owned
      = (c3db.hostAt i).chunks_owned) ∧
    (transferRun c3db 0 1 cA .launchError).semaReleased = true :=
  C10_exception_path c3db 0 1 cA (by decide) (by decide) (by decide)

/-- C4, amended.  In `update_chunks_needed` each fresh chunk is inserted
exactly once (the resulting needed list is a permutation of the old list
followed by the new chunks), and afterwards `chunk_index` equals the number
of chunks produced (`|roothost.chunks_owned| = chunkCount`); but the
insertion position is NOT uniform over the `len+1` valid positions: the
draw `random.randint(0, len+1)` takes `len+2` equally likely values and
Python's `list.insert` clamps both `len` and `len+1` to an append, so of
the `len+2` draws exactly 2 land the chunk at the tail position and exactly
1 lands it at each earlier position. -/
theorem C4_amended (needed new : List Chunk) (c : Chunk) (h : Host)
    (root_owned : List Chunk) (rands rands2 : List Nat) (pos : Nat)
    (hc : c ∉ needed) (hpos : pos ≤ needed.length)
    (hh : h.chunk_index ≤ root_owned.length) :
    ((Finset.range (needed.length + 2)).filter
        (fun r => (pyInsert needed r c).indexOf c = pos)).card
      = (if pos = needed.length then 2 else 1) ∧
    ((insertAllRandom needed rands new).1).Perm (needed ++ new) ∧
    (updateHostChunks root_owned root_owned.length h rands2).1.chunk_index
      = root_owned.length := by
  refine ⟨?_, insertAllRandom_perm new needed rands, ?_⟩
  · have hpred : ∀ r : Nat, (pyInsert needed r c).indexOf c
        = min r needed.length := by
      intro r
      unfold pyInsert
      exact indexOf_insertIdx c _ needed hc (min_le_right _ _)
    simp only [hpred]
    exact min_fiber needed.length pos hpos
  · unfold updateHostChunks
    split
    · simp only [List.length_drop]
      omega
    · dsimp only
      omega

/-- Witness for `C4_amended` at a concrete input. -/
theorem C4_amended_witness :
    ((Finset.range ([cB].length + 2)).filter
        (fun r => (pyInsert [cB] r cA).indexOf cA = 1)).card
      = (if 1 = [cB].length then 2 else 1) ∧
    ((insertAllRandom [cB] [2] [cA]).1).Perm ([cB] ++ [cA]) ∧
    (updateHostChunks [cA] [cA].length h4 [2]).1.chunk_index = [cA].length :=
  C4_amended [cB] [cA] cA h4 [cA] [2] [2] 1 (by decide) (by decide) (by decide)
